import Mathlib

/-!
Verification of the PDF auto-renamer (src/pdf_renamer.py) against its
natural-language specification.  The Python source is shallowly embedded:
pure string manipulation becomes Lean functions on `String`/`List Char`,
the filesystem and the remote services become explicit state and oracle
functions, and fallible calls return `Option`.
-/

/-! ## Python string primitives

Python `str.strip()` removes the Unicode whitespace characters from both
ends; `str.splitlines()` splits at the Unicode line-boundary characters,
treating CR LF as a single boundary.  The character sets below are the
ones CPython uses. -/

/-- Characters for which Python `str.isspace()` is true; `str.strip()`
removes exactly these from both ends. -/
def pyIsSpace (c : Char) : Bool :=
  c = ' ' || c = '\t' || c = '\n' || c = '\x0b' || c = '\x0c' || c = '\r' ||
  c = '\x1c' || c = '\x1d' || c = '\x1e' || c = '\x1f' ||
  c = '\u0085' || c = '\u00A0' || c = '\u1680' ||
  ('\u2000' ≤ c && c ≤ '\u200A') ||
  c = '\u2028' || c = '\u2029' || c = '\u202F' || c = '\u205F' || c = '\u3000'

/-- Embedding of Python `s.strip()`: drop whitespace from both ends. -/
def pyStrip (s : String) : String :=
  String.mk (((s.data.dropWhile pyIsSpace).reverse.dropWhile pyIsSpace).reverse)

/-- Line-boundary characters of Python `str.splitlines()` (CR is handled
separately so that CR LF counts as one boundary). -/
def isLineBoundary (c : Char) : Bool :=
  c = '\n' || c = '\x0b' || c = '\x0c' || c = '\r' ||
  c = '\x1c' || c = '\x1d' || c = '\x1e' ||
  c = '\u0085' || c = '\u2028' || c = '\u2029'

/-- Embedding of Python `str.splitlines()` on character lists: split at
line boundaries, no trailing empty line for a terminal boundary. -/
def pySplitlinesL : List Char → List (List Char)
  | [] => []
  | c :: cs =>
    if c = '\r' then
      match cs with
      | [] => [[]]
      | c2 :: cs2 =>
        if c2 = '\n' then [] :: pySplitlinesL cs2
        else [] :: pySplitlinesL (c2 :: cs2)
    else if isLineBoundary c then [] :: pySplitlinesL cs
    else
      match pySplitlinesL cs with
      | [] => [[c]]
      | l :: ls => (c :: l) :: ls

/-- Embedding of Python `s.splitlines()`. -/
def pySplitlines (s : String) : List String :=
  (pySplitlinesL s.data).map (fun l => String.mk l)

/-- ASCII lowercasing of one character, as used by `f.lower()` on the
ASCII range (the extension filter only compares ASCII letters). -/
def lowerChar (c : Char) : Char :=
  if 'A' ≤ c && c ≤ 'Z' then Char.ofNat (c.toNat + 32) else c

/-- Embedding of Python `f.lower()` (ASCII range). -/
def pyLower (s : String) : String :=
  String.mk (s.data.map lowerChar)

/-! ## Filename Sanitizer (`clean_filename`, pdf_renamer.py lines 54-72)

`re.sub(r'[\\/*?:"<>|]', "", name)` removes the nine reserved characters,
`name.replace(' ', '')` removes every ASCII space character,
`name[:100]` truncates to 100 code points, and the placeholder
"未命名文档" is substituted for an empty input or an empty result. -/

/-- The nine characters removed by the sanitizer's regular expression. -/
def ILLEGAL_CHARS : List Char := ['\\', '/', '*', '?', ':', '"', '<', '>', '|']

/-- Embedding of `clean_filename`. -/
def clean_filename (name : String) : String :=
  if name = "" then "未命名文档"
  else
    let n1 := String.mk (name.data.filter (fun c => !(ILLEGAL_CHARS.contains c)))
    let n2 := String.mk (n1.data.filter (fun c => !(decide (c = ' '))))
    let n3 := if n2.length > 100 then String.mk (n2.data.take 100) else n2
    if n3 = "" then "未命名文档" else n3

/-! ### Sanitizer lemmas -/

lemma clean_filename_data (name : String) :
    clean_filename name = "未命名文档" ∨
    (clean_filename name).data.Sublist
      (name.data.filter (fun c => !(ILLEGAL_CHARS.contains c) && !(decide (c = ' ')))) := by
  unfold clean_filename
  by_cases h0 : name = ""
  · simp [h0]
  · simp only [h0, if_false]
    set l2 := (name.data.filter (fun c => !(ILLEGAL_CHARS.contains c))).filter
      (fun c => !(decide (c = ' '))) with hl2
    have hcomb : l2 = name.data.filter
        (fun c => !(ILLEGAL_CHARS.contains c) && !(decide (c = ' '))) := by
      rw [hl2, List.filter_filter]
      exact List.filter_congr (fun a _ => Bool.and_comm _ _)
    by_cases hlen : (String.mk ((name.data.filter
        (fun c => !(ILLEGAL_CHARS.contains c))).filter (fun c => !(decide (c = ' '))))).length > 100
    · simp only [hlen, if_true]
      by_cases hempty : String.mk (l2.take 100) = ""
      · left
        simp only [← hl2, hempty, if_pos]
      · right
        rw [← hcomb]
        simp only [← hl2, hempty, if_neg, not_false_iff]
        exact (List.take_sublist 100 l2)
    · simp only [hlen, if_false]
      by_cases hempty : String.mk ((name.data.filter
          (fun c => !(ILLEGAL_CHARS.contains c))).filter (fun c => !(decide (c = ' ')))) = ""
      · left
        simp [hempty]
      · right
        rw [← hcomb]
        simp only [hempty, if_neg, not_false_iff, ← hl2]
        exact List.Sublist.refl l2

lemma clean_filename_length_le (name : String) : (clean_filename name).length ≤ 100 := by
  unfold clean_filename
  by_cases h0 : name = ""
  · simp only [h0, if_true]
    decide
  · simp only [h0, if_false]
    by_cases hlen : (String.mk ((name.data.filter (fun c => !(ILLEGAL_CHARS.contains c))).filter
        (fun c => !(decide (c = ' '))))).length > 100
    · simp only [hlen, if_true]
      by_cases he : String.mk (((name.data.filter (fun c => !(ILLEGAL_CHARS.contains c))).filter
          (fun c => !(decide (c = ' ')))).take 100) = ""
      · simp only [he, if_pos]
        decide
      · simp only [he, if_neg, not_false_iff]
        exact List.length_take_le 100 _
    · simp only [hlen, if_false]
      by_cases he : String.mk ((name.data.filter (fun c => !(ILLEGAL_CHARS.contains c))).filter
          (fun c => !(decide (c = ' ')))) = ""
      · simp only [he, if_pos]
        decide
      · simp only [he, if_neg, not_false_iff]
        omega

lemma clean_filename_ne_empty (name : String) : clean_filename name ≠ "" := by
  unfold clean_filename
  by_cases h0 : name = ""
  · simp only [h0, if_true]
    decide
  · simp only [h0, if_false]
    by_cases hlen : (String.mk ((name.data.filter (fun c => !(ILLEGAL_CHARS.contains c))).filter
        (fun c => !(decide (c = ' '))))).length > 100
    · simp only [hlen, if_true]
      by_cases he : String.mk (((name.data.filter (fun c => !(ILLEGAL_CHARS.contains c))).filter
          (fun c => !(decide (c = ' ')))).take 100) = ""
      · simp only [he, if_pos]
        decide
      · simp only [he, if_neg, not_false_iff]
        exact he
    · simp only [hlen, if_false]
      by_cases he : String.mk ((name.data.filter (fun c => !(ILLEGAL_CHARS.contains c))).filter
          (fun c => !(decide (c = ' ')))) = ""
      · simp only [he, if_pos]
        decide
      · simp only [he, if_neg, not_false_iff]
        exact he

lemma clean_filename_of_filter_empty (name : String)
    (h : name.data.filter (fun c => !(ILLEGAL_CHARS.contains c) && !(decide (c = ' '))) = []) :
    clean_filename name = "未命名文档" := by
  unfold clean_filename
  by_cases h0 : name = ""
  · simp only [h0, if_true]
  · simp only [h0, if_false]
    have h2 : (name.data.filter (fun c => !(ILLEGAL_CHARS.contains c))).filter
        (fun c => !(decide (c = ' '))) = [] := by
      rw [List.filter_filter, ← h]
      exact List.filter_congr (fun a _ => Bool.and_comm _ _)
    simp only [h2]
    decide

/-- C2 (amended): `clean_filename` removes the nine reserved characters and
every ASCII space character (other whitespace such as TAB is preserved),
truncates to at most 100 code points, never returns the empty string, and
substitutes the placeholder whenever removing reserved characters and
spaces leaves nothing. -/
theorem c2_clean_filename_props (s : String) :
    (∀ c ∈ (clean_filename s).data, ILLEGAL_CHARS.contains c = false ∧ ¬(c = ' ')) ∧
    (clean_filename s).length ≤ 100 ∧
    clean_filename s ≠ "" ∧
    (s.data.filter (fun c => !(ILLEGAL_CHARS.contains c) && !(decide (c = ' '))) = [] →
      clean_filename s = "未命名文档") := by
  refine ⟨?_, clean_filename_length_le s, clean_filename_ne_empty s,
    clean_filename_of_filter_empty s⟩
  intro c hc
  rcases clean_filename_data s with h | h
  · rw [h] at hc
    have hall : ∀ c ∈ ("未命名文档" : String).data,
        ILLEGAL_CHARS.contains c = false ∧ ¬(c = ' ') := by decide
    exact hall c hc
  · have hc2 := h.subset hc
    rw [List.mem_filter] at hc2
    have hprop := hc2.2
    simp only [Bool.and_eq_true, Bool.not_eq_true'] at hprop
    refine ⟨hprop.1, ?_⟩
    intro he
    have := hprop.2
    rw [he] at this
    simp at this

/-- C2 counterexample: the claim says the sanitizer output contains no
whitespace of any kind, but `clean_filename` only removes the ASCII space
character; a TAB survives unchanged. -/
theorem c2_tab_survives :
    clean_filename "a\tb" = "a\tb" ∧ '\t' ∈ (clean_filename "a\tb").data ∧
      pyIsSpace '\t' = true := by decide

/-- Witness for `c2_clean_filename_props` at concrete inputs. -/
theorem c2_clean_filename_props_witness :
    clean_filename "::" = "未命名文档" ∧
    (clean_filename "report: Q1/2024 <final>").length ≤ 100 ∧
    (ILLEGAL_CHARS.contains 'r' = false ∧ ¬('r' = ' ')) :=
  ⟨(c2_clean_filename_props "::").2.2.2 (by decide),
   (c2_clean_filename_props "report: Q1/2024 <final>").2.1,
   (c2_clean_filename_props "report: Q1/2024 <final>").1 'r' (by decide)⟩

/-! ## Decimal formatting (Python `f"{counter}"`)

Python formats the counter in decimal.  `toDecimalAux` carries explicit
fuel so that the definition is structurally recursive (and hence reduces
inside the kernel). -/

/-- One decimal digit. -/
def digitChar : Nat → Char
  | 0 => '0' | 1 => '1' | 2 => '2' | 3 => '3' | 4 => '4'
  | 5 => '5' | 6 => '6' | 7 => '7' | 8 => '8' | 9 => '9'
  | _ => '*'

/-- Decimal digits of `n`, most significant first; `fuel > n` suffices. -/
def toDecimalAux : Nat → Nat → List Char
  | 0, _ => []
  | fuel + 1, n =>
    if n < 10 then [digitChar n]
    else toDecimalAux fuel (n / 10) ++ [digitChar (n % 10)]

/-- Decimal digits of `n`. -/
def toDecimal (n : Nat) : List Char := toDecimalAux (n + 1) n

/-- Embedding of Python decimal formatting of a nonnegative integer. -/
def natRepr (n : Nat) : String := String.mk (toDecimal n)

/-- Numeric value of a decimal digit character. -/
def digitVal (c : Char) : Nat := c.toNat - 48

/-- Value of a most-significant-first digit list. -/
def listVal (l : List Char) : Nat := l.foldl (fun a c => 10 * a + digitVal c) 0

lemma digitVal_digitChar (n : Nat) (h : n < 10) : digitVal (digitChar n) = n := by
  interval_cases n <;> rfl

lemma listVal_append_singleton (l : List Char) (c : Char) :
    listVal (l ++ [c]) = 10 * listVal l + digitVal c := by
  simp [listVal, List.foldl_append]

lemma listVal_toDecimalAux : ∀ fuel n, n < fuel → listVal (toDecimalAux fuel n) = n := by
  intro fuel
  induction fuel with
  | zero => intro n hn; omega
  | succ fuel ih =>
    intro n hn
    rw [toDecimalAux]
    by_cases h : n < 10
    · rw [if_pos h]
      simp [listVal, digitVal_digitChar n h]
    · rw [if_neg h]
      have hdiv : n / 10 < n := Nat.div_lt_self (by omega) (by omega)
      rw [listVal_append_singleton, ih (n / 10) (by omega),
        digitVal_digitChar _ (Nat.mod_lt n (by omega))]
      omega

lemma listVal_toDecimal (n : Nat) : listVal (toDecimal n) = n :=
  listVal_toDecimalAux (n + 1) n (by omega)

lemma toDecimal_injective : Function.Injective toDecimal := by
  intro a b h
  rw [← listVal_toDecimal a, ← listVal_toDecimal b, h]

/-! ## Collision Resolver (`get_unique_filename`, pdf_renamer.py lines 75-83)

The Python `while` loop tries `base`, `base（1）`, `base（2）`, … until the
name is absent from the folder.  `uniqueLoop` carries fuel
`folder.length + 1`, which is proved sufficient below. -/

/-- The candidate tried at loop counter `k`: the bare base for `k = 0`,
otherwise `base（k）` with full-width parentheses. -/
def uniqueCand (base : String) : Nat → String
  | 0 => base
  | k + 1 => base ++ "（" ++ natRepr (k + 1) ++ "）"

/-- The `while os.path.exists(...)` loop of `get_unique_filename`. -/
def uniqueLoop (folder : List String) (base ext : String) : Nat → Nat → String
  | counter, 0 => uniqueCand base counter ++ ext
  | counter, fuel + 1 =>
    if (uniqueCand base counter ++ ext) ∈ folder then
      uniqueLoop folder base ext (counter + 1) fuel
    else uniqueCand base counter ++ ext

/-- Embedding of `get_unique_filename` (the source gives `extension` the
default value `".pdf"`; callers here pass it explicitly). -/
def get_unique_filename (folder : List String) (base ext : String) : String :=
  uniqueLoop folder base ext 0 (folder.length + 1)

/-! ### Collision-resolver lemmas -/

lemma uniqueCand_succ_append_data (base ext : String) (k : Nat) :
    (uniqueCand base (k + 1) ++ ext).data
      = base.data ++ ('（' :: (toDecimal (k + 1) ++ ('）' :: ext.data))) := by
  show ((((base ++ "（") ++ natRepr (k + 1)) ++ "）") ++ ext).data = _
  simp only [String.data_append, natRepr, List.append_assoc, List.cons_append,
    List.singleton_append, List.nil_append, show ("（" : String).data = ['（'] from rfl,
    show ("）" : String).data = ['）'] from rfl]

lemma uniqueCand_append_injective (base ext : String) :
    Function.Injective (fun k => uniqueCand base k ++ ext) := by
  intro a b h
  simp only at h
  cases a with
  | zero =>
    cases b with
    | zero => rfl
    | succ k =>
      exfalso
      have hd := congrArg String.data h
      rw [uniqueCand_succ_append_data] at hd
      have h0 : (uniqueCand base 0 ++ ext).data = base.data ++ ext.data := by
        show (base ++ ext).data = _
        rw [String.data_append]
      rw [h0] at hd
      have hlen := congrArg List.length hd
      simp [List.length_append] at hlen
      omega
  | succ j =>
    cases b with
    | zero =>
      exfalso
      have hd := congrArg String.data h.symm
      rw [uniqueCand_succ_append_data] at hd
      have h0 : (uniqueCand base 0 ++ ext).data = base.data ++ ext.data := by
        show (base ++ ext).data = _
        rw [String.data_append]
      rw [h0] at hd
      have hlen := congrArg List.length hd
      simp [List.length_append] at hlen
      omega
    | succ k =>
      have hd := congrArg String.data h
      rw [uniqueCand_succ_append_data, uniqueCand_succ_append_data] at hd
      have h1 := List.append_cancel_left hd
      injection h1 with _ h2
      have h3 := List.append_cancel_right h2
      have h4 := toDecimal_injective h3
      omega

lemma exists_free_cand (folder : List String) (base ext : String) :
    ∃ i, i < folder.length + 1 ∧ (uniqueCand base i ++ ext) ∉ folder := by
  by_contra hcon
  push_neg at hcon
  have hsub : (Finset.range (folder.length + 1)).image (fun k => uniqueCand base k ++ ext)
      ⊆ folder.toFinset := by
    intro x hx
    simp only [Finset.mem_image, Finset.mem_range] at hx
    obtain ⟨i, hi, rfl⟩ := hx
    exact List.mem_toFinset.mpr (hcon i hi)
  have hcard := Finset.card_le_card hsub
  rw [Finset.card_image_of_injective _ (uniqueCand_append_injective base ext),
    Finset.card_range] at hcard
  have hle := List.toFinset_card_le folder
  omega

lemma uniqueLoop_not_mem (folder : List String) (base ext : String) :
    ∀ fuel counter, (∃ i, i < fuel ∧ (uniqueCand base (counter + i) ++ ext) ∉ folder) →
      uniqueLoop folder base ext counter fuel ∉ folder := by
  intro fuel
  induction fuel with
  | zero =>
    rintro counter ⟨i, hi, -⟩
    exact absurd hi (by omega)
  | succ fuel ih =>
    rintro counter ⟨i, hi, hfree⟩
    rw [uniqueLoop]
    split
    · next hmem =>
      apply ih (counter + 1)
      cases i with
      | zero =>
        rw [Nat.add_zero] at hfree
        exact absurd hmem hfree
      | succ j =>
        refine ⟨j, by omega, ?_⟩
        have he : counter + 1 + j = counter + (j + 1) := by omega
        rw [he]
        exact hfree
    · next hmem => exact hmem

lemma uniqueLoop_shape (folder : List String) (base ext : String) :
    ∀ fuel counter, ∃ k, counter ≤ k ∧
      uniqueLoop folder base ext counter fuel = uniqueCand base k ++ ext := by
  intro fuel
  induction fuel with
  | zero => intro counter; exact ⟨counter, le_refl _, rfl⟩
  | succ fuel ih =>
    intro counter
    rw [uniqueLoop]
    split
    · obtain ⟨k, hk, he⟩ := ih (counter + 1)
      exact ⟨k, by omega, he⟩
    · exact ⟨counter, le_refl _, rfl⟩

lemma get_unique_filename_not_mem (folder : List String) (base ext : String) :
    get_unique_filename folder base ext ∉ folder := by
  obtain ⟨i, hi, hfree⟩ := exists_free_cand folder base ext
  refine uniqueLoop_not_mem folder base ext (folder.length + 1) 0 ⟨i, hi, ?_⟩
  rw [Nat.zero_add]
  exact hfree

lemma get_unique_filename_shape (folder : List String) (base ext : String) :
    ∃ k, get_unique_filename folder base ext = uniqueCand base k ++ ext := by
  obtain ⟨k, -, he⟩ := uniqueLoop_shape folder base ext (folder.length + 1) 0
  exact ⟨k, he⟩

lemma get_unique_filename_suffixed (folder : List String) (base ext : String)
    (h : (base ++ ext) ∈ folder) :
    ∃ n, 1 ≤ n ∧
      get_unique_filename folder base ext = base ++ "（" ++ natRepr n ++ "）" ++ ext := by
  unfold get_unique_filename
  rw [uniqueLoop]
  simp only [uniqueCand]
  rw [if_pos h, Nat.zero_add]
  obtain ⟨k, hk, he⟩ := uniqueLoop_shape folder base ext folder.length 1
  cases k with
  | zero => omega
  | succ m =>
    rw [he]
    exact ⟨m + 1, by omega, by simp [uniqueCand]⟩

/-- C3: the Collision Resolver returns a name absent from the folder
listing at call time, always of the form `base` or `base（k）` plus the
extension; in particular for a folder holding exactly `A.pdf` and
`A（1）.pdf` it returns `A（2）.pdf`. -/
theorem c3_get_unique_filename :
    (∀ folder base ext, get_unique_filename folder base ext ∉ folder ∧
      ∃ k, get_unique_filename folder base ext = uniqueCand base k ++ ext) ∧
    get_unique_filename ["A.pdf", "A（1）.pdf"] "A" ".pdf" = "A（2）.pdf" := by
  constructor
  · intro folder base ext
    exact ⟨get_unique_filename_not_mem folder base ext,
      get_unique_filename_shape folder base ext⟩
  · decide

/-! ## Filename Synthesizer (pdf_renamer.py lines 143-163 and 204-217)

`call_deepseek_api` POSTs the prompt template with the document text
substituted for the placeholder; any exception (network error, non-2xx
status via `raise_for_status`, malformed JSON body) yields `None`.  The
HTTP exchange is an oracle `api : String → Option String` mapping the
request prompt to the response content (`none` for any failure). -/

/-- Text of `PROMPT_TEMPLATE` before the content placeholder. -/
def promptHead : String :=
  "请根据以下PDF文档第一页内容，生成一个简洁、有意义的文件名。\n要求：\n1. 包含文档核心主题\n2. 包含关键日期或编号(如有)\n3. 使用中文\n4. 长度不超过30个字符\n5. 如果第一行内容可以体现文件内容，请直接使用第一行文字作为文件名\n6. 如果前6行内容中出现判决书、裁定书、裁决书或类似字眼，你需要按照该方式生成文件名，具体案号在文本中会有显示：（2021）浙0110民初1234号民事判决书\n7. 如果文本中出现核准开业登记通知书、个体户机读档案或类似字眼，你需要在文本中找到“企业名称：”字眼，并将“企业名称：”后属于企业名称的部分列为文件名，如：“企业名称:佛山市禅城区潮牌网红服装商行(个体工商户)”的文件名为“佛山市禅城区潮牌网红服装商行(个体工商户)”\n8. 如果文本前三行内容包含材料清单字眼，则无需考虑后面出现的判决书、裁定书、裁决书、核准开业登记通知书、个体户机读档案或类似字眼\n\n文档内容：\n"

/-- Text of `PROMPT_TEMPLATE` after the content placeholder. -/
def promptTail : String := "\n\n请直接返回文件名，不要包含其他说明。"

/-- Embedding of `PROMPT_TEMPLATE.format(content=content)`. -/
def format_prompt (content : String) : String := promptHead ++ content ++ promptTail

/-- Embedding of `call_deepseek_api`: on success the response content is
stripped; on any failure the function returns `None`. -/
def call_deepseek_api (api : String → Option String) (content : String) : Option String :=
  (api (format_prompt content)).map pyStrip

/-- Embedding of the first-line fallback
`next((line.strip() for line in lines if line.strip()), "")`. -/
def first_line_of_text (text : String) : String :=
  (((pySplitlines text).map pyStrip).find? (fun l => !(decide (l = "")))).getD ""

/-- Embedding of the name-synthesis block of `extract_filename_from_pdf`
(lines 204-217): strip the text, call the remote service, return the
stripped response when it is non-empty (Python truthiness of
`smart_name`), otherwise fall back to the first non-blank line.  The
second component counts the outbound API calls made. -/
def synthesize_filename (text : String) (api : String → Option String) : String × Nat :=
  match call_deepseek_api api (pyStrip text) with
  | some smart_name => if smart_name = "" then (first_line_of_text text, 1) else (smart_name, 1)
  | none => (first_line_of_text text, 1)

/-- View of an opened PDF document: page count and the page-one text
layer returned by `page.get_text()`. -/
structure PdfDoc where
  pageCount : Nat
  pageOneText : String
deriving DecidableEq

/-- Embedding of `extract_filename_from_pdf`.  `doc = none` models
`fitz.open` raising (the surrounding handler returns `""`); `ocrRes`
models the OCR branch: `none` for an exception while rendering or saving
the page image (propagating to the same handler), `some t` for the text
returned by `extract_text_from_image`, which itself catches OCR errors
and returns `""`.  The second component counts outbound API calls. -/
def extract_filename_from_pdf (doc : Option PdfDoc) (ocrRes : Option String)
    (api : String → Option String) : String × Nat :=
  match doc with
  | none => ("", 0)
  | some d =>
    if d.pageCount = 0 then ("", 0)
    else
      if pyStrip d.pageOneText = "" then
        match ocrRes with
        | none => ("", 0)
        | some ocrText => synthesize_filename ocrText api
      else synthesize_filename d.pageOneText api

/-- Statement of the claim's fallback value, written from the spec's
words: split the extracted text into lines, strip each line, and return
the first non-blank one (or the empty string). -/
def specFirstNonBlankLine (text : String) : String :=
  match (pySplitlines text).filter (fun l => !(decide (pyStrip l = ""))) with
  | [] => ""
  | l :: _ => pyStrip l

lemma find_strip_eq (ls : List String) :
    (((ls.map pyStrip).find? (fun l => !(decide (l = "")))).getD "")
      = (match ls.filter (fun l => !(decide (pyStrip l = ""))) with
         | [] => ""
         | l :: _ => pyStrip l) := by
  induction ls with
  | nil => rfl
  | cons a ls ih =>
    by_cases h : pyStrip a = ""
    · simp only [List.map_cons, List.find?, List.filter, h]
      simpa using ih
    · simp only [List.map_cons, List.find?, List.filter, h]
      simp [h]

lemma first_line_eq_spec (text : String) :
    first_line_of_text text = specFirstNonBlankLine text :=
  find_strip_eq (pySplitlines text)

/-- C1: for every extracted text, if the remote summarization call fails
(the HTTP oracle yields `none` for the request prompt), the synthesizer
returns exactly the first non-blank line of the extracted text, each
line stripped of surrounding whitespace — it does not raise. -/
theorem c1_synthesize_fallback (text : String) (api : String → Option String)
    (h : api (format_prompt (pyStrip text)) = none) :
    (synthesize_filename text api).1 = specFirstNonBlankLine text := by
  unfold synthesize_filename call_deepseek_api
  rw [h]
  exact first_line_eq_spec text

/-- Witness for `c1_synthesize_fallback` on a fixed multi-line sample. -/
theorem c1_synthesize_fallback_witness :
    (synthesize_filename "\n  \n  合同书  \n第二行" (fun _ => none)).1
      = specFirstNonBlankLine "\n  \n  合同书  \n第二行" :=
  c1_synthesize_fallback "\n  \n  合同书  \n第二行" (fun _ => none) rfl

/-- Helper for C6: when the page text strips to empty, the OCR result is
the empty string, and the remote call on the empty content fails or
returns only whitespace, the extractor returns the empty name (after one
API call). -/
lemma extract_empty_of_no_content (d : PdfDoc) (api : String → Option String)
    (hpc : ¬(d.pageCount = 0)) (htext : pyStrip d.pageOneText = "")
    (hapi : call_deepseek_api api "" = none ∨ call_deepseek_api api "" = some "") :
    extract_filename_from_pdf (some d) (some "") api = ("", 1) := by
  simp only [extract_filename_from_pdf]
  rw [if_neg hpc, if_pos htext]
  unfold synthesize_filename
  have hstrip : pyStrip "" = "" := rfl
  rw [hstrip]
  rcases hapi with h | h
  · rw [h]
    rfl
  · rw [h]
    rfl

/-- C7 counterexample: the claim says no outbound call is made for a
document with empty extracted text, but the code calls the remote
service unconditionally — here page-one text and OCR are both empty and
exactly one call is still made. -/
theorem c7_call_made_on_empty_text :
    (extract_filename_from_pdf (some (PdfDoc.mk 1 "")) (some "") (fun _ => none)).2 = 1 := by
  decide

/-- C7 (amended): one outbound call is made for every document that opens
with at least one page and whose OCR branch (when taken) completes —
even when the extracted text is empty; no call is made when the document
fails to open, has no pages, or rendering for OCR raises.  When the
effective text is empty and the call fails, the returned name is empty. -/
theorem c7_api_call_count :
    (∀ ocrRes api, (extract_filename_from_pdf none ocrRes api).2 = 0) ∧
    (∀ d ocrRes api, d.pageCount = 0 →
      (extract_filename_from_pdf (some d) ocrRes api).2 = 0) ∧
    (∀ d ocrRes api, ¬(d.pageCount = 0) → ¬(pyStrip d.pageOneText = "") →
      (extract_filename_from_pdf (some d) ocrRes api).2 = 1) ∧
    (∀ d t api, ¬(d.pageCount = 0) → pyStrip d.pageOneText = "" →
      (extract_filename_from_pdf (some d) (some t) api).2 = 1) ∧
    (∀ d api, ¬(d.pageCount = 0) → pyStrip d.pageOneText = "" →
      (extract_filename_from_pdf (some d) none api).2 = 0) ∧
    (∀ d api, ¬(d.pageCount = 0) → pyStrip d.pageOneText = "" →
      api (format_prompt "") = none →
      (extract_filename_from_pdf (some d) (some "") api).1 = "") := by
  refine ⟨fun ocrRes api => rfl, ?_, ?_, ?_, ?_, ?_⟩
  · intro d ocrRes api h
    simp only [extract_filename_from_pdf]
    rw [if_pos h]
  · intro d ocrRes api h1 h2
    simp only [extract_filename_from_pdf]
    rw [if_neg h1, if_neg h2]
    unfold synthesize_filename
    cases call_deepseek_api api (pyStrip d.pageOneText) with
    | none => rfl
    | some s =>
      by_cases hs : s = ""
      · simp [hs]
      · simp [hs]
  · intro d t api h1 h2
    simp only [extract_filename_from_pdf]
    rw [if_neg h1, if_pos h2]
    unfold synthesize_filename
    cases call_deepseek_api api (pyStrip t) with
    | none => rfl
    | some s =>
      by_cases hs : s = ""
      · simp [hs]
      · simp [hs]
  · intro d api h1 h2
    simp only [extract_filename_from_pdf]
    rw [if_neg h1, if_pos h2]
  · intro d api h1 h2 h3
    have := extract_empty_of_no_content d api h1 h2 (Or.inl (by rw [call_deepseek_api, h3]; rfl))
    rw [this]

/-- Witness for `c7_api_call_count` at concrete inputs. -/
theorem c7_api_call_count_witness :
    (extract_filename_from_pdf (some (PdfDoc.mk 1 "判决书")) (some "") (fun _ => none)).2 = 1 ∧
    (extract_filename_from_pdf (some (PdfDoc.mk 0 "x")) none (fun _ => none)).2 = 0 ∧
    (extract_filename_from_pdf (some (PdfDoc.mk 1 " ")) (some "") (fun _ => none)).1 = "" :=
  ⟨c7_api_call_count.2.2.1 (PdfDoc.mk 1 "判决书") (some "") (fun _ => none)
      (by decide) (by decide),
   c7_api_call_count.2.1 (PdfDoc.mk 0 "x") none (fun _ => none) rfl,
   c7_api_call_count.2.2.2.2.2 (PdfDoc.mk 1 " ") (fun _ => none) (by decide) (by decide) rfl⟩

/-! ## Ledger file (`更名存档.txt`, pdf_renamer.py lines 228-238)

`save_processed_file` appends `f"{filename}\n"` to the ledger file;
`load_processed_files` iterates the file's lines in text mode (universal
newlines: CR LF and CR are translated to LF) and strips each line.  The
ledger is modelled as the file's content string. -/

/-- Text-mode universal-newline translation: CR LF and lone CR become LF. -/
def univNewlines : List Char → List Char
  | [] => []
  | c :: cs =>
    if c = '\r' then
      match cs with
      | [] => ['\n']
      | c2 :: cs2 =>
        if c2 = '\n' then '\n' :: univNewlines cs2 else '\n' :: univNewlines (c2 :: cs2)
    else c :: univNewlines cs

/-- Split at LF, keeping every segment (including a trailing empty one). -/
def splitOnNl : List Char → List (List Char)
  | [] => [[]]
  | c :: cs =>
    if c = '\n' then [] :: splitOnNl cs
    else
      match splitOnNl cs with
      | [] => [[c]]
      | l :: ls => (c :: l) :: ls

/-- File iteration yields no final empty line after a terminal LF. -/
def dropFinalEmpty (ls : List (List Char)) : List (List Char) :=
  if ls.getLast? = some ([] : List Char) then ls.dropLast else ls

/-- The lines produced by iterating a text file with the given content. -/
def fileLines (s : String) : List String :=
  (dropFinalEmpty (splitOnNl (univNewlines s.data))).map (fun l => String.mk l)

/-- Embedding of `load_processed_files`: the set of stripped ledger lines
(membership in the returned list is what the caller uses). -/
def load_processed_files (ledger : String) : List String :=
  (fileLines ledger).map pyStrip

/-- Embedding of `save_processed_file`: append `filename` and a newline. -/
def save_processed_file (ledger : String) (filename : String) : String :=
  ledger ++ filename ++ "\n"

/-- The ledger file is empty or ends with a newline — established by every
`save_processed_file` and assumed of the initial file. -/
def LedgerInv (s : String) : Prop :=
  s.data = [] ∨ s.data.getLast? = some '\n'

/-! ### Ledger lemmas -/

lemma getLast?_cons_ne {α : Type} (a : α) (l : List α) (v : α)
    (h : ¬(a :: l).getLast? = some v) : ¬l.getLast? = some v := by
  intro hl
  apply h
  cases l with
  | nil => simp at hl
  | cons b m =>
    rw [List.getLast?_cons_cons]
    exact hl

lemma getLast?_cons_tail {α : Type} (a : α) (l : List α) (v : α) (hne : l ≠ [])
    (h : (a :: l).getLast? = some v) : l.getLast? = some v := by
  cases l with
  | nil => exact absurd rfl hne
  | cons b m =>
    rw [List.getLast?_cons_cons] at h
    exact h

lemma splitOnNl_ne_nil (l : List Char) : splitOnNl l ≠ [] := by
  cases l with
  | nil => simp [splitOnNl]
  | cons c cs =>
    simp only [splitOnNl]
    by_cases h : c = '\n'
    · rw [if_pos h]
      simp
    · rw [if_neg h]
      cases hsp : splitOnNl cs with
      | nil => simp
      | cons m ms => simp

lemma splitOnNl_cons_nl (cs : List Char) :
    splitOnNl ('\n' :: cs) = [] :: splitOnNl cs := by
  simp [splitOnNl]

lemma splitOnNl_cons_ne (c : Char) (cs : List Char) (hc : ¬c = '\n')
    (m : List Char) (ms : List (List Char)) (hsp : splitOnNl cs = m :: ms) :
    splitOnNl (c :: cs) = (c :: m) :: ms := by
  simp only [splitOnNl]
  rw [if_neg hc, hsp]

lemma splitOnNl_eq_single (u : List Char) :
    ∀ l, splitOnNl u = [l] → l = u ∧ '\n' ∉ u := by
  induction u with
  | nil =>
    intro l h
    simp [splitOnNl] at h
    simp [h]
  | cons c cs ih =>
    intro l h
    by_cases hc : c = '\n'
    · subst hc
      rw [splitOnNl_cons_nl] at h
      injection h with h1 h2
      exact absurd h2 (splitOnNl_ne_nil cs)
    · cases hsp : splitOnNl cs with
      | nil => exact absurd hsp (splitOnNl_ne_nil cs)
      | cons m ms =>
        rw [splitOnNl_cons_ne c cs hc m ms hsp] at h
        injection h with h1 h2
        subst h2
        obtain ⟨hm, hnl⟩ := ih m hsp
        subst hm
        constructor
        · rw [← h1]
        · intro hmem
          rcases List.mem_cons.mp hmem with he | he
          · exact hc he.symm
          · exact hnl he

lemma splitOnNl_clean_append (ns rest : List Char) (h : '\n' ∉ ns) :
    splitOnNl (ns ++ '\n' :: rest) = ns :: splitOnNl rest := by
  induction ns with
  | nil =>
    rw [List.nil_append, splitOnNl_cons_nl]
  | cons c cs ih =>
    have hc : ¬(c = '\n') := fun he => h (he ▸ List.mem_cons_self c cs)
    have hcs : '\n' ∉ cs := fun hm => h (List.mem_cons_of_mem c hm)
    rw [List.cons_append, splitOnNl_cons_ne c _ hc cs (splitOnNl rest) (ih hcs)]

lemma univNewlines_clean_append (ns rest : List Char) (h : '\r' ∉ ns) :
    univNewlines (ns ++ rest) = ns ++ univNewlines rest := by
  induction ns with
  | nil => rfl
  | cons c cs ih =>
    have hc : ¬(c = '\r') := fun he => h (he ▸ List.mem_cons_self c cs)
    have hcs : '\r' ∉ cs := fun hm => h (List.mem_cons_of_mem c hm)
    rw [List.cons_append, univNewlines.eq_def]
    dsimp only
    rw [if_neg hc, ih hcs, List.cons_append]

lemma univNewlines_clean (ns : List Char) (h : '\r' ∉ ns) : univNewlines ns = ns := by
  have h2 := univNewlines_clean_append ns [] h
  rw [List.append_nil, show univNewlines [] = [] from rfl, List.append_nil] at h2
  exact h2

lemma univNewlines_rn (cs2 : List Char) :
    univNewlines ('\r' :: '\n' :: cs2) = '\n' :: univNewlines cs2 := by
  rw [univNewlines.eq_def]
  simp

lemma univNewlines_r_ne (c2 : Char) (cs2 : List Char) (h : ¬c2 = '\n') :
    univNewlines ('\r' :: c2 :: cs2) = '\n' :: univNewlines (c2 :: cs2) := by
  rw [univNewlines.eq_def]
  simp [h]

lemma univNewlines_ne_r (c : Char) (cs : List Char) (h : ¬c = '\r') :
    univNewlines (c :: cs) = c :: univNewlines cs := by
  rw [univNewlines.eq_def]
  simp [h]

lemma univNewlines_ne_nil (l : List Char) (h : l ≠ []) : univNewlines l ≠ [] := by
  cases l with
  | nil => exact absurd rfl h
  | cons c cs =>
    by_cases hc : c = '\r'
    · subst hc
      cases cs with
      | nil => simp [univNewlines]
      | cons c2 cs2 =>
        by_cases h2 : c2 = '\n'
        · subst h2
          rw [univNewlines_rn]
          simp
        · rw [univNewlines_r_ne c2 cs2 h2]
          simp
    · rw [univNewlines_ne_r c cs hc]
      simp

lemma univNewlines_getLast_nl (l : List Char) (h : l.getLast? = some '\n') :
    (univNewlines l).getLast? = some '\n' := by
  induction l using univNewlines.induct with
  | case1 => simp at h
  | case2 => simp at h
  | case3 cs2 ih =>
    rw [univNewlines_rn]
    cases hcs : cs2 with
    | nil =>
      subst hcs
      rfl
    | cons b m =>
      subst hcs
      rw [List.getLast?_cons_cons, List.getLast?_cons_cons] at h
      have hih := ih h
      have hne := univNewlines_ne_nil (b :: m) (by simp)
      cases hu : univNewlines (b :: m) with
      | nil => exact absurd hu hne
      | cons x xs =>
        rw [hu] at hih
        rw [List.getLast?_cons_cons]
        exact hih
  | case4 c2 cs2 hc2 ih =>
    rw [univNewlines_r_ne c2 cs2 hc2]
    rw [List.getLast?_cons_cons] at h
    have hih := ih h
    have hne := univNewlines_ne_nil (c2 :: cs2) (by simp)
    cases hu : univNewlines (c2 :: cs2) with
    | nil => exact absurd hu hne
    | cons x xs =>
      rw [hu] at hih
      rw [List.getLast?_cons_cons]
      exact hih
  | case5 c cs hc ih =>
    rw [univNewlines_ne_r c cs hc]
    cases hcs : cs with
    | nil =>
      subst hcs
      simp at h
      subst h
      rfl
    | cons b m =>
      subst hcs
      rw [List.getLast?_cons_cons] at h
      have hih := ih h
      have hne := univNewlines_ne_nil (b :: m) (by simp)
      cases hu : univNewlines (b :: m) with
      | nil => exact absurd hu hne
      | cons x xs =>
        rw [hu] at hih
        rw [List.getLast?_cons_cons]
        exact hih

lemma univNewlines_inv_append (c rest : List Char) (h : ¬c.getLast? = some '\r') :
    univNewlines (c ++ rest) = univNewlines c ++ univNewlines rest := by
  induction c using univNewlines.induct with
  | case1 => rfl
  | case2 =>
    exfalso
    exact h (by simp)
  | case3 cs2 ih =>
    have hcs2 : ¬cs2.getLast? = some '\r' := by
      cases hcs : cs2 with
      | nil => simp
      | cons b m =>
        subst hcs
        intro hl
        apply h
        rw [List.getLast?_cons_cons, List.getLast?_cons_cons]
        exact hl
    rw [List.cons_append, List.cons_append, univNewlines_rn, univNewlines_rn,
      ih hcs2, List.cons_append]
  | case4 c2 cs2 hc2 ih =>
    have hpeel : ¬(c2 :: cs2).getLast? = some '\r' := getLast?_cons_ne '\r' (c2 :: cs2) '\r' h
    rw [List.cons_append, List.cons_append, univNewlines_r_ne c2 _ hc2,
      univNewlines_r_ne c2 cs2 hc2, ← List.cons_append, ih hpeel, List.cons_append]
  | case5 c cs hc ih =>
    by_cases hnil : cs = []
    · subst hnil
      rw [List.cons_append, List.nil_append, univNewlines_ne_r c rest hc,
        univNewlines_ne_r c [] hc]
      rfl
    · have hpeel : ¬cs.getLast? = some '\r' := getLast?_cons_ne c cs '\r' h
      rw [List.cons_append, univNewlines_ne_r c _ hc, univNewlines_ne_r c cs hc,
        ih hpeel, List.cons_append]

lemma splitOnNl_getLast_empty (u : List Char)
    (h : u = [] ∨ u.getLast? = some '\n') :
    (splitOnNl u).getLast? = some ([] : List Char) := by
  induction u with
  | nil => rfl
  | cons c cs ih =>
    rcases h with h | h
    · exact absurd h (by simp)
    · by_cases hc : c = '\n'
      · subst hc
        rw [splitOnNl_cons_nl]
        by_cases hnil : cs = []
        · subst hnil
          rfl
        · have hlast : cs.getLast? = some '\n' := getLast?_cons_tail '\n' cs '\n' hnil h
          have hih := ih (Or.inr hlast)
          cases hsp : splitOnNl cs with
          | nil => exact absurd hsp (splitOnNl_ne_nil cs)
          | cons m ms =>
            rw [hsp] at hih
            rw [List.getLast?_cons_cons]
            exact hih
      · have hnil : cs ≠ [] := by
          intro he
          subst he
          simp at h
          exact hc h
        have hlast : cs.getLast? = some '\n' := getLast?_cons_tail c cs '\n' hnil h
        have hih := ih (Or.inr hlast)
        cases hsp : splitOnNl cs with
        | nil => exact absurd hsp (splitOnNl_ne_nil cs)
        | cons m ms =>
          rw [hsp] at hih
          rw [splitOnNl_cons_ne c cs hc m ms hsp]
          cases ms with
          | nil =>
            exfalso
            simp at hih
            obtain ⟨hm, hnl⟩ := splitOnNl_eq_single cs m hsp
            rw [hih] at hm
            exact hnil hm.symm
          | cons m2 ms2 =>
            rw [List.getLast?_cons_cons]
            rw [List.getLast?_cons_cons] at hih
            exact hih

lemma splitOnNl_inv_append (u : List Char) (hu : u = [] ∨ u.getLast? = some '\n')
    (n : List Char) (hn : '\n' ∉ n) :
    splitOnNl (u ++ (n ++ ['\n'])) = (splitOnNl u).dropLast ++ [n, []] := by
  induction u with
  | nil =>
    rw [List.nil_append, show (n ++ ['\n']) = n ++ '\n' :: [] from rfl,
      splitOnNl_clean_append n [] hn]
    rfl
  | cons c cs ih =>
    rcases hu with h | h
    · exact absurd h (by simp)
    · by_cases hc : c = '\n'
      · subst hc
        by_cases hnil : cs = []
        · subst hnil
          rw [List.cons_append, List.nil_append, splitOnNl_cons_nl,
            show (n ++ ['\n']) = n ++ '\n' :: [] from rfl,
            splitOnNl_clean_append n [] hn]
          rfl
        · have hlast : cs.getLast? = some '\n' := getLast?_cons_tail '\n' cs '\n' hnil h
          have hih := ih (Or.inr hlast)
          rw [List.cons_append, splitOnNl_cons_nl, hih, splitOnNl_cons_nl]
          cases hsp : splitOnNl cs with
          | nil => exact absurd hsp (splitOnNl_ne_nil cs)
          | cons m ms => simp
      · have hnil : cs ≠ [] := by
          intro he
          subst he
          simp at h
          exact hc h
        have hlast : cs.getLast? = some '\n' := getLast?_cons_tail c cs '\n' hnil h
        have hih := ih (Or.inr hlast)
        cases hsp : splitOnNl cs with
        | nil => exact absurd hsp (splitOnNl_ne_nil cs)
        | cons m ms =>
          cases ms with
          | nil =>
            exfalso
            obtain ⟨hm, hnl⟩ := splitOnNl_eq_single cs m hsp
            subst hm
            exact hnl (List.mem_of_getLast?_eq_some hlast)
          | cons m2 ms2 =>
            have hihcons : splitOnNl (cs ++ (n ++ ['\n']))
                = m :: ((m2 :: ms2).dropLast ++ [n, []]) := by
              rw [hih, hsp, List.dropLast_cons₂, List.cons_append]
            rw [List.cons_append, splitOnNl_cons_ne c _ hc _ _ hihcons,
              splitOnNl_cons_ne c cs hc m (m2 :: ms2) hsp, List.dropLast_cons₂,
              List.cons_append]

lemma fileLines_append (c n : String) (hInv : LedgerInv c)
    (hn1 : '\n' ∉ n.data) (hn2 : '\r' ∉ n.data) :
    fileLines (save_processed_file c n) = fileLines c ++ [n] := by
  unfold fileLines save_processed_file dropFinalEmpty
  have hdata : (c ++ n ++ "\n").data = c.data ++ (n.data ++ ['\n']) := by
    rw [String.data_append, String.data_append, List.append_assoc]
  rw [hdata]
  have hcu : ¬c.data.getLast? = some '\r' := by
    rcases hInv with h | h
    · rw [h]
      simp
    · rw [h]
      intro he
      injection he with he2
      exact absurd he2 (by decide)
  rw [univNewlines_inv_append c.data (n.data ++ ['\n']) hcu]
  have hclean : '\r' ∉ (n.data ++ ['\n']) := by
    intro hmem
    rcases List.mem_append.mp hmem with hx | hx
    · exact hn2 hx
    · simp at hx
  rw [univNewlines_clean _ hclean]
  have hInvU : univNewlines c.data = [] ∨ (univNewlines c.data).getLast? = some '\n' := by
    rcases hInv with h | h
    · left
      rw [h]
      rfl
    · right
      exact univNewlines_getLast_nl c.data h
  rw [splitOnNl_inv_append (univNewlines c.data) hInvU n.data hn1]
  have hlastU := splitOnNl_getLast_empty (univNewlines c.data) hInvU
  set X := splitOnNl (univNewlines c.data) with hX
  have hsplit : X.dropLast ++ [n.data, ([] : List Char)]
      = (X.dropLast ++ [n.data]) ++ [([] : List Char)] := by simp
  have h1 : (X.dropLast ++ [n.data, ([] : List Char)]).getLast? = some ([] : List Char) := by
    rw [hsplit]
    exact List.getLast?_concat _
  rw [if_pos h1, if_pos hlastU, hsplit, List.dropLast_concat, List.map_append]
  rfl

lemma LedgerInv_save (c n : String) : LedgerInv (save_processed_file c n) := by
  right
  show (c ++ n ++ "\n").data.getLast? = some '\n'
  rw [String.data_append]
  exact List.getLast?_concat _

lemma load_processed_files_save (c n : String) (hInv : LedgerInv c)
    (hn1 : '\n' ∉ n.data) (hn2 : '\r' ∉ n.data) :
    load_processed_files (save_processed_file c n)
      = load_processed_files c ++ [pyStrip n] := by
  unfold load_processed_files
  rw [fileLines_append c n hInv hn1 hn2, List.map_append]
  rfl

/-- Ledger content after appending a list of names in order. -/
def appendNames (s : String) (ns : List String) : String :=
  ns.foldl save_processed_file s

lemma appendNames_cons (s n : String) (ns : List String) :
    appendNames s (n :: ns) = appendNames (save_processed_file s n) ns := rfl

lemma appendNames_append (s : String) (ns ms : List String) :
    appendNames s (ns ++ ms) = appendNames (appendNames s ns) ms := by
  unfold appendNames
  rw [List.foldl_append]

lemma LedgerInv_appendNames (ns : List String) :
    ∀ s, LedgerInv s → LedgerInv (appendNames s ns) := by
  induction ns with
  | nil => intro s h; exact h
  | cons n ns ih =>
    intro s h
    exact ih _ (LedgerInv_save s n)

lemma load_appendNames (ns : List String) :
    ∀ s, LedgerInv s → (∀ n ∈ ns, '\n' ∉ n.data ∧ '\r' ∉ n.data) →
    load_processed_files (appendNames s ns)
      = load_processed_files s ++ ns.map pyStrip := by
  induction ns with
  | nil =>
    intro s _ _
    simp [appendNames]
  | cons n ns ih =>
    intro s hInv hns
    rw [appendNames_cons,
      ih _ (LedgerInv_save s n) (fun m hm => hns m (List.mem_cons_of_mem n hm)),
      load_processed_files_save s n hInv (hns n (List.mem_cons_self n ns)).1
        (hns n (List.mem_cons_self n ns)).2]
    simp

/-! ## Folder Processor (`process_folder`, pdf_renamer.py lines 241-278)

The folder is a list of entries (name, content id); the content id keys
the per-file oracles of `Env` (the opened document, the OCR outcome and
the rename outcome for that file's content), while `api` is the global
HTTP oracle.  `process_folder` lists the PDF files not in the ledger
once, then processes them in order, threading the folder state; the
rename and the ledger append model `os.rename` + `save_processed_file`,
and a failing `os.rename` (caught by the per-file `except`) leaves the
state unchanged.  The second component of the result is the log of
successful renames (old name, new name). -/

/-- A directory entry: current filename and an identifier for the file's
content (renaming preserves it). -/
structure FileEntry where
  name : String
  content : Nat
deriving DecidableEq

/-- Folder state: directory entries plus the ledger file's content. -/
structure FolderState where
  files : List FileEntry
  ledger : String
deriving DecidableEq

/-- Oracles for one sweep: per-content document/OCR/rename outcomes and
the global summarization HTTP exchange. -/
structure Env where
  doc : Nat → Option PdfDoc
  ocr : Nat → Option String
  api : String → Option String
  renameOk : Nat → Bool

/-- The name `extract_filename_from_pdf` produces for a file's content. -/
def extractFor (env : Env) (c : Nat) : String :=
  (extract_filename_from_pdf (env.doc c) (env.ocr c) env.api).1

/-- Names of the entries, in listing order. -/
def fileNames (files : List FileEntry) : List String :=
  files.map (fun e => e.name)

/-- Embedding of the `f.lower().endswith('.pdf')` filter. -/
def isPdfName (f : String) : Bool :=
  List.isSuffixOf (".pdf".data) ((pyLower f).data)

/-- The candidate list of one sweep: PDF names not in the ledger. -/
def candidateNames (st : FolderState) : List String :=
  (fileNames st.files).filter
    (fun f => isPdfName f && !(decide (f ∈ load_processed_files st.ledger)))

/-- Embedding of `os.rename` on the directory listing. -/
def renameEntry (files : List FileEntry) (old nw : String) : List FileEntry :=
  files.map (fun e => if e.name = old then FileEntry.mk nw e.content else e)

/-- Processing of one candidate file inside the sweep loop (lines
256-278): extract a name; if non-empty, clean it, resolve collisions,
rename, and only then append the new name to the ledger.  A missing file
(`find? = none`, the open raises and the extractor returns `""`), an
empty extracted name, or a failing rename leaves the state unchanged. -/
def processFile (env : Env) (st : FolderState) (fname : String) :
    FolderState × List (String × String) :=
  match st.files.find? (fun x => decide (x.name = fname)) with
  | none => (st, [])
  | some e =>
    if extractFor env e.content = "" then (st, [])
    else
      let newName := get_unique_filename (fileNames st.files)
        (clean_filename (extractFor env e.content)) ".pdf"
      if env.renameOk e.content then
        (FolderState.mk (renameEntry st.files fname newName)
          (save_processed_file st.ledger newName), [(fname, newName)])
      else (st, [])

/-- The sweep loop over the (pre-computed) candidate list. -/
def sweepFiles (env : Env) : FolderState → List String → FolderState × List (String × String)
  | st, [] => (st, [])
  | st, f :: fs =>
    let r1 := processFile env st f
    let r2 := sweepFiles env r1.1 fs
    (r2.1, r1.2 ++ r2.2)

/-- Embedding of `process_folder`: compute the candidates once, then
process them in order. -/
def process_folder (env : Env) (st : FolderState) :
    FolderState × List (String × String) :=
  sweepFiles env st (candidateNames st)

/-- Directory names are distinct (an invariant of a real folder). -/
def NamesNodup (files : List FileEntry) : Prop := (fileNames files).Nodup

/-! ### Folder Processor lemmas -/

lemma fileNames_cons (a : FileEntry) (fs : List FileEntry) :
    fileNames (a :: fs) = a.name :: fileNames fs := rfl

lemma mem_candidateNames (st : FolderState) (f : String) :
    f ∈ candidateNames st ↔
      f ∈ fileNames st.files ∧ isPdfName f = true ∧
        f ∉ load_processed_files st.ledger := by
  unfold candidateNames
  rw [List.mem_filter]
  simp [and_assoc]

lemma find?_name_eq (files : List FileEntry) (fname : String) (e : FileEntry)
    (h : files.find? (fun x => decide (x.name = fname)) = some e) :
    e ∈ files ∧ e.name = fname := by
  have h1 := List.mem_of_find?_eq_some h
  have h2 := List.find?_some h
  simp at h2
  exact ⟨h1, h2⟩

lemma find?_of_mem_nodup (files : List FileEntry) (e : FileEntry)
    (hnd : NamesNodup files) (he : e ∈ files) :
    files.find? (fun x => decide (x.name = e.name)) = some e := by
  induction files with
  | nil => simp at he
  | cons a fs ih =>
    unfold NamesNodup at hnd
    rw [fileNames_cons, List.nodup_cons] at hnd
    by_cases ha : a.name = e.name
    · rcases List.mem_cons.mp he with he1 | he1
      · subst he1
        simp [List.find?]
      · exfalso
        apply hnd.1
        rw [ha]
        exact List.mem_map_of_mem _ he1
    · have he2 : e ∈ fs := by
        rcases List.mem_cons.mp he with he1 | he1
        · exact absurd (he1 ▸ rfl) ha
        · exact he1
      rw [List.find?]
      have hd : decide (a.name = e.name) = false := by simp [ha]
      rw [hd]
      exact ih hnd.2 he2

lemma processFile_none (env : Env) (st : FolderState) (fname : String)
    (hf : st.files.find? (fun x => decide (x.name = fname)) = none) :
    processFile env st fname = (st, []) := by
  unfold processFile
  rw [hf]

lemma processFile_extract_empty (env : Env) (st : FolderState) (fname : String)
    (e : FileEntry) (hf : st.files.find? (fun x => decide (x.name = fname)) = some e)
    (hex : extractFor env e.content = "") :
    processFile env st fname = (st, []) := by
  unfold processFile
  rw [hf]
  simp [hex]

lemma processFile_rename_fails (env : Env) (st : FolderState) (fname : String)
    (e : FileEntry) (hf : st.files.find? (fun x => decide (x.name = fname)) = some e)
    (hok : env.renameOk e.content = false) :
    processFile env st fname = (st, []) := by
  unfold processFile
  rw [hf]
  by_cases hex : extractFor env e.content = ""
  · simp [hex]
  · simp [hex, hok]

lemma processFile_renamed (env : Env) (st : FolderState) (fname : String)
    (e : FileEntry) (hf : st.files.find? (fun x => decide (x.name = fname)) = some e)
    (hex : ¬(extractFor env e.content = "")) (hok : env.renameOk e.content = true) :
    processFile env st fname =
      (FolderState.mk
        (renameEntry st.files fname (get_unique_filename (fileNames st.files)
          (clean_filename (extractFor env e.content)) ".pdf"))
        (save_processed_file st.ledger (get_unique_filename (fileNames st.files)
          (clean_filename (extractFor env e.content)) ".pdf")),
       [(fname, get_unique_filename (fileNames st.files)
          (clean_filename (extractFor env e.content)) ".pdf")]) := by
  unfold processFile
  rw [hf]
  simp [hex, hok]

/-- The collision-resolved name chosen for entry `e` in state `st`. -/
def newNameOf (env : Env) (st : FolderState) (e : FileEntry) : String :=
  get_unique_filename (fileNames st.files) (clean_filename (extractFor env e.content)) ".pdf"

lemma entry_unique (files : List FileEntry) (hnd : NamesNodup files)
    (e e' : FileEntry) (he : e ∈ files) (he' : e' ∈ files) (hn : e.name = e'.name) :
    e = e' := by
  induction files with
  | nil => simp at he
  | cons a fs ih =>
    unfold NamesNodup at hnd
    rw [fileNames_cons, List.nodup_cons] at hnd
    rcases List.mem_cons.mp he with h1 | h1 <;> rcases List.mem_cons.mp he' with h2 | h2
    · rw [h1, h2]
    · exfalso
      apply hnd.1
      rw [h1] at hn
      rw [hn]
      exact List.mem_map_of_mem _ h2
    · exfalso
      apply hnd.1
      rw [h2] at hn
      rw [← hn]
      exact List.mem_map_of_mem _ h1
    · exact ih hnd.2 h1 h2

lemma processFile_cases (env : Env) (st : FolderState) (fname : String) :
    (processFile env st fname = (st, []) ∧
      ∀ e, st.files.find? (fun x => decide (x.name = fname)) = some e →
        extractFor env e.content = "" ∨ env.renameOk e.content = false) ∨
    ∃ e, st.files.find? (fun x => decide (x.name = fname)) = some e ∧
      ¬(extractFor env e.content = "") ∧ env.renameOk e.content = true ∧
      processFile env st fname =
        (FolderState.mk (renameEntry st.files fname (newNameOf env st e))
          (save_processed_file st.ledger (newNameOf env st e)),
         [(fname, newNameOf env st e)]) := by
  cases hf : st.files.find? (fun x => decide (x.name = fname)) with
  | none =>
    left
    refine ⟨processFile_none env st fname hf, ?_⟩
    intro e he
    exact absurd he (by simp)
  | some e =>
    by_cases hex : extractFor env e.content = ""
    · left
      refine ⟨processFile_extract_empty env st fname e hf hex, ?_⟩
      intro e' he'
      injection he' with he2
      rw [← he2]
      exact Or.inl hex
    · cases hok : env.renameOk e.content with
      | false =>
        left
        refine ⟨processFile_rename_fails env st fname e hf hok, ?_⟩
        intro e' he'
        injection he' with he2
        rw [← he2]
        exact Or.inr hok
      | true =>
        right
        exact ⟨e, rfl, hex, hok, processFile_renamed env st fname e hf hex hok⟩

lemma renameEntry_names (files : List FileEntry) (old nw : String) :
    fileNames (renameEntry files old nw)
      = (fileNames files).map (fun x => if x = old then nw else x) := by
  unfold fileNames renameEntry
  rw [List.map_map, List.map_map]
  apply List.map_congr_left
  intro e _
  by_cases h : e.name = old
  · simp [h]
  · simp [h]

lemma nodup_map_rename (l : List String) (hnd : l.Nodup) (nw : String)
    (hnw : nw ∉ l) (old : String) :
    (l.map (fun x => if x = old then nw else x)).Nodup := by
  apply List.Nodup.map_on ?_ hnd
  intro x hx y hy hxy
  by_cases h1 : x = old <;> by_cases h2 : y = old
  · rw [h1, h2]
  · rw [if_pos h1, if_neg h2] at hxy
    rw [← hxy] at hy
    exact absurd hy hnw
  · rw [if_neg h1, if_pos h2] at hxy
    rw [hxy] at hx
    exact absurd hx hnw
  · rwa [if_neg h1, if_neg h2] at hxy

lemma renameEntry_mem_of_ne (files : List FileEntry) (old nw : String) (e : FileEntry)
    (he : e ∈ files) (hne : ¬(e.name = old)) : e ∈ renameEntry files old nw := by
  unfold renameEntry
  have h2 := List.mem_map_of_mem
    (fun x => if x.name = old then FileEntry.mk nw x.content else x) he
  simp only [if_neg hne] at h2
  exact h2

lemma mem_renameEntry (files : List FileEntry) (old nw : String) (e2 : FileEntry)
    (h : e2 ∈ renameEntry files old nw) :
    e2 ∈ files ∨ (e2.name = nw ∧ ∃ e ∈ files, e.name = old ∧ e2.content = e.content) := by
  unfold renameEntry at h
  rw [List.mem_map] at h
  obtain ⟨e, he, heq⟩ := h
  by_cases hn : e.name = old
  · right
    rw [if_pos hn] at heq
    rw [← heq]
    exact ⟨rfl, e, he, hn, rfl⟩
  · left
    rw [if_neg hn] at heq
    rw [← heq]
    exact he

lemma renameEntry_no_old (files : List FileEntry) (old nw : String) (hne : ¬(nw = old))
    (e2 : FileEntry) (h : e2 ∈ renameEntry files old nw) : ¬(e2.name = old) := by
  unfold renameEntry at h
  rw [List.mem_map] at h
  obtain ⟨e, he, heq⟩ := h
  by_cases hn : e.name = old
  · rw [if_pos hn] at heq
    rw [← heq]
    exact hne
  · rw [if_neg hn] at heq
    rw [← heq]
    exact hn

lemma sweepFiles_cons (env : Env) (st : FolderState) (f : String) (fs : List String) :
    sweepFiles env st (f :: fs)
      = ((sweepFiles env (processFile env st f).1 fs).1,
         (processFile env st f).2 ++ (sweepFiles env (processFile env st f).1 fs).2) := by
  rw [sweepFiles]

lemma sweepFiles_noop (env : Env) (L : List String) :
    ∀ st, (∀ f ∈ L, processFile env st f = (st, [])) → sweepFiles env st L = (st, []) := by
  induction L with
  | nil => intro st _; rfl
  | cons f fs ih =>
    intro st h
    rw [sweepFiles_cons, h f (List.mem_cons_self f fs)]
    show ((sweepFiles env st fs).1, [] ++ (sweepFiles env st fs).2) = (st, [])
    rw [ih st (fun g hg => h g (List.mem_cons_of_mem f hg))]
    rfl

lemma sweepFiles_spec (env : Env) (L : List String) :
    ∀ st, NamesNodup st.files →
      NamesNodup (sweepFiles env st L).1.files ∧
      (sweepFiles env st L).1.ledger
        = appendNames st.ledger ((sweepFiles env st L).2.map Prod.snd) ∧
      (∀ e2 ∈ (sweepFiles env st L).1.files,
        e2.name ∉ ((sweepFiles env st L).2.map Prod.snd) →
          e2 ∈ st.files ∧ (e2.name ∈ L →
            extractFor env e2.content = "" ∨ env.renameOk e2.content = false)) ∧
      (∀ e ∈ st.files,
        (extractFor env e.content = "" ∨ env.renameOk e.content = false) →
          e ∈ (sweepFiles env st L).1.files) := by
  induction L with
  | nil =>
    intro st hnd
    refine ⟨hnd, rfl, ?_, ?_⟩
    · intro e2 he2 _
      exact ⟨he2, fun h => absurd h (List.not_mem_nil _)⟩
    · intro e he _
      exact he
  | cons f fs ih =>
    intro st hnd
    rcases processFile_cases env st f with ⟨hstep, hreason⟩ | ⟨e, hf, hex, hok, hstep⟩
    · obtain ⟨ih1, ih2, ih3, ih4⟩ := ih st hnd
      have hsw : sweepFiles env st (f :: fs) = sweepFiles env st fs := by
        rw [sweepFiles_cons, hstep]
        simp
      rw [hsw]
      refine ⟨ih1, ih2, ?_, ih4⟩
      intro e2 he2 hnm
      obtain ⟨hmem, hrsn⟩ := ih3 e2 he2 hnm
      refine ⟨hmem, ?_⟩
      intro hL
      rcases List.mem_cons.mp hL with hL | hL
      · apply hreason e2
        rw [← hL]
        exact find?_of_mem_nodup st.files e2 hnd hmem
      · exact hrsn hL
    · have hfe := find?_name_eq st.files f e hf
      have hnmem : newNameOf env st e ∉ fileNames st.files :=
        get_unique_filename_not_mem _ _ _
      set n := newNameOf env st e with hn
      set st1 : FolderState := FolderState.mk (renameEntry st.files f n)
        (save_processed_file st.ledger n) with hst1
      have hnd1 : NamesNodup st1.files := by
        show NamesNodup (renameEntry st.files f n)
        unfold NamesNodup
        rw [renameEntry_names]
        exact nodup_map_rename (fileNames st.files) hnd n hnmem f
      obtain ⟨ih1, ih2, ih3, ih4⟩ := ih st1 hnd1
      have hsw : sweepFiles env st (f :: fs)
          = ((sweepFiles env st1 fs).1, (f, n) :: (sweepFiles env st1 fs).2) := by
        rw [sweepFiles_cons, hstep]
        rfl
      rw [hsw]
      have hne_nf : ¬(n = f) := by
        intro he2
        apply hnmem
        rw [he2, ← hfe.2]
        exact List.mem_map_of_mem _ hfe.1
      refine ⟨ih1, ?_, ?_, ?_⟩
      · rw [ih2]
        show appendNames (save_processed_file st.ledger n)
            ((sweepFiles env st1 fs).2.map Prod.snd)
          = appendNames st.ledger (((f, n) :: (sweepFiles env st1 fs).2).map Prod.snd)
        rw [← appendNames_cons]
        rfl
      · intro e2 he2 hnm
        have hn2 : ¬(e2.name = n) := fun he3 => hnm (by rw [he3]; exact List.mem_cons_self _ _)
        have hnm2 : e2.name ∉ (sweepFiles env st1 fs).2.map Prod.snd :=
          fun hx => hnm (List.mem_cons_of_mem _ hx)
        obtain ⟨hmem1, hrsn⟩ := ih3 e2 he2 hnm2
        have hmem0 : e2 ∈ st.files := by
          rcases mem_renameEntry st.files f n e2 hmem1 with h | h
          · exact h
          · exact absurd h.1 hn2
        refine ⟨hmem0, ?_⟩
        intro hL
        rcases List.mem_cons.mp hL with hL | hL
        · exact absurd hL (renameEntry_no_old st.files f n hne_nf e2 hmem1)
        · exact hrsn hL
      · intro e0 he0 hrsn
        have hne0 : ¬(e0.name = f) := by
          intro he3
          have heq0 : e0 = e := entry_unique st.files hnd e0 e he0 hfe.1
            (by rw [he3, hfe.2])
          rcases hrsn with hr | hr
          · rw [heq0] at hr
            exact hex hr
          · rw [heq0, hok] at hr
            exact absurd hr (by decide)
        have hmem1 : e0 ∈ st1.files := renameEntry_mem_of_ne st.files f n e0 he0 hne0
        exact ih4 e0 hmem1 hrsn

lemma map_pyStrip_fixed (l : List String) (h : ∀ n ∈ l, pyStrip n = n) :
    l.map pyStrip = l := by
  induction l with
  | nil => rfl
  | cons a l ih =>
    rw [List.map_cons, h a (List.mem_cons_self a l),
      ih (fun m hm => h m (List.mem_cons_of_mem a hm))]

lemma load_after_sweep (env : Env) (st : FolderState) (hnd : NamesNodup st.files)
    (hInv : LedgerInv st.ledger)
    (hclean : ∀ n ∈ (process_folder env st).2.map Prod.snd,
      pyStrip n = n ∧ '\n' ∉ n.data ∧ '\r' ∉ n.data) :
    load_processed_files (process_folder env st).1.ledger
      = load_processed_files st.ledger ++ (process_folder env st).2.map Prod.snd := by
  have hspec := sweepFiles_spec env (candidateNames st) st hnd
  have hled := hspec.2.1
  show load_processed_files (sweepFiles env st (candidateNames st)).1.ledger = _
  rw [hled,
    load_appendNames ((sweepFiles env st (candidateNames st)).2.map Prod.snd) st.ledger
      hInv (fun m hm => (hclean m hm).2),
    map_pyStrip_fixed ((sweepFiles env st (candidateNames st)).2.map Prod.snd)
      (fun m hm => (hclean m hm).1)]
  rfl

lemma second_sweep_noop (env : Env) (st : FolderState) (hnd : NamesNodup st.files)
    (hInv : LedgerInv st.ledger)
    (hclean : ∀ n ∈ (process_folder env st).2.map Prod.snd,
      pyStrip n = n ∧ '\n' ∉ n.data ∧ '\r' ∉ n.data) :
    ∀ f2 ∈ candidateNames (process_folder env st).1,
      processFile env (process_folder env st).1 f2 = ((process_folder env st).1, []) := by
  intro f2 hf2
  obtain ⟨hnd1, hled, hsur, -⟩ := sweepFiles_spec env (candidateNames st) st hnd
  have hload := load_after_sweep env st hnd hInv hclean
  rw [mem_candidateNames] at hf2
  obtain ⟨hmemN, hpdf, hnproc⟩ := hf2
  obtain ⟨e2, he2, he2n⟩ := List.mem_map.mp hmemN
  have hf2log : f2 ∉ (process_folder env st).2.map Prod.snd := by
    intro hx
    apply hnproc
    rw [hload]
    exact List.mem_append_right _ hx
  obtain ⟨hmem0, hrsn⟩ := hsur e2 he2 (by rw [he2n]; exact hf2log)
  have hf2c1 : f2 ∈ candidateNames st := by
    rw [mem_candidateNames]
    refine ⟨?_, hpdf, ?_⟩
    · rw [← he2n]
      exact List.mem_map_of_mem _ hmem0
    · intro hx
      apply hnproc
      rw [hload]
      exact List.mem_append_left _ hx
  have hreason := hrsn (by rw [he2n]; exact hf2c1)
  have hfind : (process_folder env st).1.files.find? (fun x => decide (x.name = f2))
      = some e2 := by
    rw [← he2n]
    exact find?_of_mem_nodup _ e2 hnd1 he2
  rcases hreason with hr | hr
  · exact processFile_extract_empty env _ f2 e2 hfind hr
  · exact processFile_rename_fails env _ f2 e2 hfind hr

/-- C5 (amended): running the Folder Processor twice on the same folder
performs zero renames on the second run, provided every name produced by
the first run is unchanged by whitespace-stripping and contains no
newline characters (loading the ledger strips each line, so a produced
name with, say, a leading TAB is not matched by its ledger entry and is
renamed again — see the counterexample). -/
theorem c5_second_run_no_renames (env : Env) (st : FolderState)
    (hnd : NamesNodup st.files) (hInv : LedgerInv st.ledger)
    (hclean : ∀ n ∈ (process_folder env st).2.map Prod.snd,
      pyStrip n = n ∧ '\n' ∉ n.data ∧ '\r' ∉ n.data) :
    (process_folder env (process_folder env st).1).2 = [] := by
  have hnoop := second_sweep_noop env st hnd hInv hclean
  show (sweepFiles env (process_folder env st).1
    (candidateNames (process_folder env st).1)).2 = []
  rw [sweepFiles_noop env _ _ hnoop]

/-- Environment for the C5 counterexample: the extracted first line is
`?<TAB>abc`, whose sanitized form starts with a TAB. -/
def envC5 : Env :=
  Env.mk (fun _ => some (PdfDoc.mk 1 "?\tabc")) (fun _ => some "")
    (fun _ => none) (fun _ => true)

/-- Folder for the C5 counterexample. -/
def stC5 : FolderState := FolderState.mk [FileEntry.mk "x.pdf" 0] ""

/-- C5 counterexample: the first run renames `x.pdf` to `<TAB>abc.pdf`
and ledgers that name, but loading the ledger strips the line to
`abc.pdf`, so the renamed file is selected again and the second run
performs another rename — the claim's zero-renames property fails. -/
theorem c5_counterexample :
    (process_folder envC5 stC5).2 = [("x.pdf", "\tabc.pdf")] ∧
    (process_folder envC5 (process_folder envC5 stC5).1).2
      = [("\tabc.pdf", "\tabc（1）.pdf")] := by decide

/-- Environment for the C5 witness: the produced name `abc.pdf` is clean. -/
def envC5w : Env :=
  Env.mk (fun _ => some (PdfDoc.mk 1 "abc")) (fun _ => some "")
    (fun _ => none) (fun _ => true)

/-- Folder for the C5 witness. -/
def stC5w : FolderState := FolderState.mk [FileEntry.mk "x.pdf" 0] ""

/-- Witness for `c5_second_run_no_renames` at a concrete folder. -/
theorem c5_second_run_no_renames_witness :
    (process_folder envC5w (process_folder envC5w stC5w).1).2 = [] :=
  c5_second_run_no_renames envC5w stC5w
    (by show (fileNames stC5w.files).Nodup; decide) (Or.inl rfl) (by decide)

/-- C4 (amended): a ledger entry is appended exactly for each completed
rename (the sweep's final ledger is the initial one plus one appended
line per successful rename, in order); if the rename of a file raises,
the state — and in particular the ledger — is unchanged for that file;
and such a file is again a candidate on the next sweep provided no other
file's newly produced name coincides with this file's name after the
whitespace-stripping applied when loading the ledger (otherwise the
stripped ledger line can shadow it — see the counterexample). -/
theorem c4_ledger_after_rename :
    (∀ env st, NamesNodup st.files →
      (process_folder env st).1.ledger
        = appendNames st.ledger ((process_folder env st).2.map Prod.snd)) ∧
    (∀ env st fname e,
      st.files.find? (fun x => decide (x.name = fname)) = some e →
      env.renameOk e.content = false → processFile env st fname = (st, [])) ∧
    (∀ env st f e, NamesNodup st.files → LedgerInv st.ledger →
      f ∈ candidateNames st →
      st.files.find? (fun x => decide (x.name = f)) = some e →
      ¬(extractFor env e.content = "") → env.renameOk e.content = false →
      (∀ n ∈ (process_folder env st).2.map Prod.snd,
        '\n' ∉ n.data ∧ '\r' ∉ n.data ∧ ¬(pyStrip n = f)) →
      f ∈ candidateNames (process_folder env st).1) := by
  refine ⟨?_, ?_, ?_⟩
  · intro env st hnd
    exact (sweepFiles_spec env (candidateNames st) st hnd).2.1
  · intro env st fname e hf hok
    exact processFile_rename_fails env st fname e hf hok
  · intro env st f e hnd hInv hcand hf hex hok hcol
    obtain ⟨hnd1, hled, -, hsur⟩ := sweepFiles_spec env (candidateNames st) st hnd
    have hfe := find?_name_eq st.files f e hf
    have hmem1 : e ∈ (sweepFiles env st (candidateNames st)).1.files :=
      hsur e hfe.1 (Or.inr hok)
    rw [mem_candidateNames] at hcand
    rw [mem_candidateNames]
    refine ⟨?_, hcand.2.1, ?_⟩
    · rw [← hfe.2]
      exact List.mem_map_of_mem _ hmem1
    · show f ∉ load_processed_files (sweepFiles env st (candidateNames st)).1.ledger
      rw [hled,
        load_appendNames ((sweepFiles env st (candidateNames st)).2.map Prod.snd)
          st.ledger hInv (fun m hm => ⟨(hcol m hm).1, (hcol m hm).2.1⟩)]
      intro hx
      rcases List.mem_append.mp hx with hx | hx
      · exact hcand.2.2 hx
      · obtain ⟨m, hm, hms⟩ := List.mem_map.mp hx
        exact (hcol m hm).2.2 hms

/-- Environment for the C4 counterexample: the file with content 0 fails
its rename; the file with content 1 is renamed to a name that strips to
the first file's name. -/
def envC4 : Env :=
  Env.mk
    (fun c => if c = 0 then some (PdfDoc.mk 1 "report") else some (PdfDoc.mk 1 "?\ta"))
    (fun _ => some "") (fun _ => none) (fun c => !(decide (c = 0)))

/-- Folder for the C4 counterexample. -/
def stC4 : FolderState :=
  FolderState.mk [FileEntry.mk "a.pdf" 0, FileEntry.mk "x.pdf" 1] ""

/-- C4 counterexample: `a.pdf` fails its rename and gets no ledger entry,
but the claim's "remains a candidate on the next sweep" fails — the
other file is renamed to `<TAB>a.pdf`, whose ledger line strips to
`a.pdf` and shadows the unrenamed file on the next sweep. -/
theorem c4_counterexample :
    "a.pdf" ∈ candidateNames stC4 ∧
    envC4.renameOk 0 = false ∧
    (process_folder envC4 stC4).2 = [("x.pdf", "\ta.pdf")] ∧
    FileEntry.mk "a.pdf" 0 ∈ (process_folder envC4 stC4).1.files ∧
    "a.pdf" ∉ candidateNames (process_folder envC4 stC4).1 := by decide

/-- Environment for the C4 witness: a single file whose rename fails. -/
def envC4w : Env :=
  Env.mk (fun _ => some (PdfDoc.mk 1 "abc")) (fun _ => some "")
    (fun _ => none) (fun _ => false)

/-- Folder for the C4 witness. -/
def stC4w : FolderState := FolderState.mk [FileEntry.mk "a.pdf" 0] ""

/-- Witness for `c4_ledger_after_rename` at concrete inputs. -/
theorem c4_ledger_after_rename_witness :
    (process_folder envC4w stC4w).1.ledger
      = appendNames stC4w.ledger ((process_folder envC4w stC4w).2.map Prod.snd) ∧
    processFile envC4w stC4w "a.pdf" = (stC4w, []) ∧
    "a.pdf" ∈ candidateNames (process_folder envC4w stC4w).1 :=
  ⟨c4_ledger_after_rename.1 envC4w stC4w (by show (fileNames stC4w.files).Nodup; decide),
   c4_ledger_after_rename.2.1 envC4w stC4w "a.pdf" (FileEntry.mk "a.pdf" 0)
     (by decide) rfl,
   c4_ledger_after_rename.2.2 envC4w stC4w "a.pdf" (FileEntry.mk "a.pdf" 0)
     (by show (fileNames stC4w.files).Nodup; decide) (Or.inl rfl) (by decide)
     (by decide) (by decide) rfl (by decide)⟩

/-- C8 (amended): a name recorded as a ledger line is never selected as a
processing candidate provided it is unchanged by whitespace-stripping
(the loader strips each line); and saving a newline-free name does
record it as a ledger line. -/
theorem c8_ledger_exclusion :
    (∀ st n, pyStrip n = n → n ∈ fileLines st.ledger → n ∉ candidateNames st) ∧
    (∀ c n, LedgerInv c → '\n' ∉ n.data → '\r' ∉ n.data →
      n ∈ fileLines (save_processed_file c n)) := by
  constructor
  · intro st n hstrip hline hcand
    rw [mem_candidateNames] at hcand
    apply hcand.2.2
    unfold load_processed_files
    rw [← hstrip]
    exact List.mem_map_of_mem pyStrip hline
  · intro c n hInv h1 h2
    rw [fileLines_append c n hInv h1 h2]
    exact List.mem_append_right _ (List.mem_cons_self n [])

/-- Folder for the C8 counterexample: the ledger records `<TAB>a.pdf`
(written by `save_processed_file`), and the folder still holds that file. -/
def stC8 : FolderState :=
  FolderState.mk [FileEntry.mk "\ta.pdf" 0] "\ta.pdf\n"

/-- C8 counterexample: `<TAB>a.pdf` was recorded in the ledger, still
matches the PDF filter, and is nevertheless selected again as a
candidate, because loading strips the ledger line to `a.pdf`. -/
theorem c8_counterexample :
    stC8.ledger = save_processed_file "" "\ta.pdf" ∧
    "\ta.pdf" ∈ fileLines stC8.ledger ∧
    "\ta.pdf" ∈ candidateNames stC8 := by decide

/-- Witness for `c8_ledger_exclusion` at concrete inputs. -/
theorem c8_ledger_exclusion_witness :
    "b.pdf" ∉ candidateNames (FolderState.mk [FileEntry.mk "b.pdf" 0] "b.pdf\n") ∧
    "b.pdf" ∈ fileLines (save_processed_file "" "b.pdf") :=
  ⟨c8_ledger_exclusion.1 (FolderState.mk [FileEntry.mk "b.pdf" 0] "b.pdf\n") "b.pdf"
     (by decide) (by decide),
   c8_ledger_exclusion.2 "" "b.pdf" (Or.inl rfl) (by decide) (by decide)⟩

/-- C6 (amended): when page-one text extraction strips to empty and the
OCR fallback returns the empty string, the extracted name is empty and
the Folder Processor leaves the file unrenamed with no ledger entry —
provided the remote summarization call on the empty content fails or
returns only whitespace.  (The code still contacts the remote service
with empty content; if that call returns a usable name the file is
renamed — see the counterexample.) -/
theorem c6_no_content_skip (env : Env) (st : FolderState) (f : String)
    (e : FileEntry) (d : PdfDoc)
    (hf : st.files.find? (fun x => decide (x.name = f)) = some e)
    (hdoc : env.doc e.content = some d) (hpc : ¬(d.pageCount = 0))
    (htext : pyStrip d.pageOneText = "") (hocr : env.ocr e.content = some "")
    (hapi : call_deepseek_api env.api "" = none ∨ call_deepseek_api env.api "" = some "") :
    extractFor env e.content = "" ∧ processFile env st f = (st, []) := by
  have hex : extractFor env e.content = "" := by
    unfold extractFor
    rw [hdoc, hocr, extract_empty_of_no_content d env.api hpc htext hapi]
  exact ⟨hex, processFile_extract_empty env st f e hf hex⟩

/-- Environment for the C6 counterexample: text and OCR are both empty,
but the remote service returns a usable name for the empty content. -/
def envC6 : Env :=
  Env.mk (fun _ => some (PdfDoc.mk 1 "")) (fun _ => some "")
    (fun _ => some "X") (fun _ => true)

/-- Folder for the C6 counterexample. -/
def stC6 : FolderState := FolderState.mk [FileEntry.mk "a.pdf" 0] ""

/-- C6 counterexample: page-one extraction and OCR both return empty
strings, yet the file is renamed and a ledger entry is written, because
the code calls the summarization service even with empty content and
uses its answer. -/
theorem c6_counterexample :
    pyStrip (PdfDoc.mk 1 "").pageOneText = "" ∧
    envC6.ocr 0 = some "" ∧
    (process_folder envC6 stC6).2 = [("a.pdf", "X.pdf")] ∧
    (process_folder envC6 stC6).1.ledger = "X.pdf\n" := by decide

/-- Environment for the C6 witness: the remote call fails. -/
def envC6w : Env :=
  Env.mk (fun _ => some (PdfDoc.mk 1 "")) (fun _ => some "")
    (fun _ => none) (fun _ => true)

/-- Folder for the C6 witness. -/
def stC6w : FolderState := FolderState.mk [FileEntry.mk "a.pdf" 0] ""

/-- Witness for `c6_no_content_skip` at concrete inputs. -/
theorem c6_no_content_skip_witness :
    extractFor envC6w 0 = "" ∧ processFile envC6w stC6w "a.pdf" = (stC6w, []) :=
  c6_no_content_skip envC6w stC6w "a.pdf" (FileEntry.mk "a.pdf" 0) (PdfDoc.mk 1 "")
    (by decide) rfl (by decide) (by decide) rfl (Or.inl rfl)

/-- C10: when a file's sanitized derived base name plus `.pdf` equals its
own current filename, the Collision Resolver counts the file itself as
an occupant of that name, so the chosen name is a counter-suffixed
variant `base（k）.pdf` with `k ≥ 1`, the chosen name is free, and the
Folder Processor renames the already-correctly-named file to it rather
than leaving the name unchanged. -/
theorem c10_self_named_file_renamed :
    (∀ folder base ext, (base ++ ext) ∈ folder →
      ∃ k, 1 ≤ k ∧ get_unique_filename folder base ext
        = base ++ "（" ++ natRepr k ++ "）" ++ ext) ∧
    (∀ env st f e, st.files.find? (fun x => decide (x.name = f)) = some e →
      ¬(extractFor env e.content = "") → env.renameOk e.content = true →
      clean_filename (extractFor env e.content) ++ ".pdf" = f →
      (processFile env st f).2 = [(f, newNameOf env st e)] ∧
      newNameOf env st e ∉ fileNames st.files ∧
      ∃ k, 1 ≤ k ∧ newNameOf env st e
        = clean_filename (extractFor env e.content) ++ "（" ++ natRepr k ++ "）" ++ ".pdf") := by
  constructor
  · intro folder base ext h
    exact get_unique_filename_suffixed folder base ext h
  · intro env st f e hf hex hok hname
    have hfe := find?_name_eq st.files f e hf
    have hmem : clean_filename (extractFor env e.content) ++ ".pdf" ∈ fileNames st.files := by
      rw [hname, ← hfe.2]
      exact List.mem_map_of_mem _ hfe.1
    refine ⟨?_, get_unique_filename_not_mem _ _ _, ?_⟩
    · rw [processFile_renamed env st f e hf hex hok]
      rfl
    · exact get_unique_filename_suffixed (fileNames st.files)
        (clean_filename (extractFor env e.content)) ".pdf" hmem

/-- Environment for the C10 witness: the extracted and sanitized name of
`abc.pdf` is `abc`, so the derived name equals the current filename. -/
def envC10 : Env :=
  Env.mk (fun _ => some (PdfDoc.mk 1 "abc")) (fun _ => some "")
    (fun _ => none) (fun _ => true)

/-- Folder for the C10 witness. -/
def stC10 : FolderState := FolderState.mk [FileEntry.mk "abc.pdf" 0] ""

/-- Witness for `c10_self_named_file_renamed` at concrete inputs. -/
theorem c10_self_named_file_renamed_witness :
    (processFile envC10 stC10 "abc.pdf").2
      = [("abc.pdf", newNameOf envC10 stC10 (FileEntry.mk "abc.pdf" 0))] ∧
    newNameOf envC10 stC10 (FileEntry.mk "abc.pdf" 0) ∉ fileNames stC10.files :=
  ⟨(c10_self_named_file_renamed.2 envC10 stC10 "abc.pdf" (FileEntry.mk "abc.pdf" 0)
      (by decide) (by decide) rfl (by decide)).1,
   (c10_self_named_file_renamed.2 envC10 stC10 "abc.pdf" (FileEntry.mk "abc.pdf" 0)
      (by decide) (by decide) rfl (by decide)).2.1⟩

/-! ## Command-line entry point (`main`, pdf_renamer.py lines 281-308)

`main` uses `sys.argv[1]` exactly when `len(sys.argv) == 2`, otherwise
the configured default; it then runs `os.makedirs(folder, exist_ok=True)`
(which raises `FileExistsError` — an uncaught exception, so the process
exits with status 1 — when the path exists as a non-directory) and calls
`sys.exit(1)` if the path is still not a directory; otherwise it enters
the watch loop.  `KeyboardInterrupt` and other loop errors are caught
and `main` returns normally, so no other exit-code path exists. -/

/-- The configured default folder (`default_folder`). -/
def default_folder : String := "C:/Users/共享文件"

/-- Argument resolution of `main`. -/
def resolve_folder (argv : List String) : String :=
  if argv.length = 2 then argv.getD 1 "" else default_folder

/-- Observable outcome of `main`'s startup. -/
inductive MainOutcome
  | exit1
  | runs
deriving DecidableEq

/-- Embedding of `os.makedirs(p, exist_ok=True)` over a filesystem view
(`none` = absent, `some true` = directory, `some false` = non-directory):
raises (`none`) when the path exists as a non-directory, otherwise
ensures a directory at the path. -/
def os_makedirs (fs : String → Option Bool) (p : String) :
    Option (String → Option Bool) :=
  match fs p with
  | some false => none
  | _ => some (fun q => if q = p then some true else fs q)

/-- Embedding of `main`'s startup decision. -/
def pyMain (argv : List String) (fs : String → Option Bool) : MainOutcome :=
  match os_makedirs fs (resolve_folder argv) with
  | none => MainOutcome.exit1
  | some fs2 =>
    if fs2 (resolve_folder argv) = some true then MainOutcome.runs
    else MainOutcome.exit1

/-- C9: the entry point takes a single optional positional argument
naming the target folder and falls back to the configured default when
it is absent; it exits with status 1 exactly when the resolved path is
not a directory (it exists as a non-directory entry — a missing path is
created by `makedirs`); there is no other exit-code behavior. -/
theorem c9_cli_surface :
    (∀ prog a, resolve_folder [prog, a] = a) ∧
    (∀ prog, resolve_folder [prog] = default_folder) ∧
    (∀ argv fs, pyMain argv fs = MainOutcome.exit1 ↔
      fs (resolve_folder argv) = some false) := by
  refine ⟨fun prog a => rfl, fun prog => rfl, ?_⟩
  intro argv fs
  cases hp : fs (resolve_folder argv) with
  | none =>
    have hrun : pyMain argv fs = MainOutcome.runs := by
      unfold pyMain os_makedirs
      rw [hp]
      simp
    rw [hrun]
    simp
  | some b =>
    cases b with
    | false =>
      have hex : pyMain argv fs = MainOutcome.exit1 := by
        unfold pyMain os_makedirs
        rw [hp]
      rw [hex]
      simp
    | true =>
      have hrun : pyMain argv fs = MainOutcome.runs := by
        unfold pyMain os_makedirs
        rw [hp]
        simp
      rw [hrun]
      simp

/-- Witness for `c9_cli_surface` at concrete inputs. -/
theorem c9_cli_surface_witness :
    resolve_folder ["prog", "D:/docs"] = "D:/docs" ∧
    resolve_folder ["prog"] = default_folder ∧
    pyMain ["prog", "D:/docs"] (fun _ => some false) = MainOutcome.exit1 :=
  ⟨c9_cli_surface.1 "prog" "D:/docs", c9_cli_surface.2.1 "prog",
   (c9_cli_surface.2.2 ["prog", "D:/docs"] (fun _ => some false)).mpr rfl⟩
